import Mathlib

/-!
Shallow embedding of the measurable-IR rewrite core of `pymc/logprob/opt.py`:
the `PreserveRVMappings` graph feature (the provenance tracker), the local
rewrite rules `local_lift_DiracDelta`, `local_remove_DiracDelta`,
`incsubtensor_rv_replace` and `naive_bcast_rv_lift`, and the driver
`construct_ir_fgraph`.

Graph variables are embedded as expression trees (`Expr`); an apply node
carries an operation (`Op`) and its input variables.  Python dictionaries
(`rv_values`, `original_values`, the clone memo) are embedded as
association lists with `insert`/`eraseKey`/`lookup` mirroring `d[k] = v`,
`d.pop(k)` and membership tests; exceptions (`KeyError`, `ValueError`,
`AssertionError`, `IndexError`) are explicit values.
-/

/-- Graph operations relevant to the rewrites in `opt.py`.
`elemwise` carries a code interpreted by an environment-supplied scalar
function; `dimShuffle` carries its reordering; `subtensor`/`incSubtensor`
carry their index list (the embedding of the `idx_list`/advanced index
inputs recovered by `indices_from_subtensor`), with `incSubtensor`'s flag
distinguishing `set_subtensor` from `inc_subtensor`; `randomVar` carries a
distribution identifier and the output's `ndim`; `diracDelta` is aeppl's
`DiracDelta`; `shapeOf` and `broadcastShape` embed the symbolic
`param.shape` and `at.broadcast_shape` nodes built by
`naive_bcast_rv_lift`. -/
inductive Op where
  | diracDelta : Op
  | elemwise (code : Nat) : Op
  | dimShuffle (order : List Nat) : Op
  | broadcastTo : Op
  | subtensor (idx : List Nat) : Op
  | incSubtensor (idx : List Nat) (set_instead_of_inc : Bool) : Op
  | randomVar (id ndim : Nat) : Op
  | shapeOf : Op
  | broadcastShape : Op
  deriving DecidableEq, Repr

mutual
/-- A graph variable: a free input, a literal vector constant, or the
(value) output of an apply node `app op inputs`. -/
inductive Expr where
  | fv (n : Nat) : Expr
  | lit (v : List Int) : Expr
  | app (op : Op) (inputs : ExprList) : Expr
  deriving DecidableEq, Repr
/-- Input lists of an apply node (kept as a mutual inductive so equality
stays decidable). -/
inductive ExprList where
  | nil : ExprList
  | cons (head : Expr) (tail : ExprList) : ExprList
  deriving DecidableEq, Repr
end

/-- Convert a plain list of variables into apply-node inputs. -/
def ExprList.ofList : List Expr → ExprList
  | [] => .nil
  | a :: t => .cons a (ExprList.ofList t)

/-- Convert apply-node inputs back to a plain list. -/
def ExprList.toList : ExprList → List Expr
  | .nil => []
  | .cons a t => a :: t.toList

/-- `MeasurableVariable` capability: `RandomVariable` and `DiracDelta`
carry it intrinsically (`isinstance(op, MeasurableVariable)`). -/
def Op.isMeasurable : Op → Bool
  | .randomVar _ _ => true
  | .diracDelta => true
  | _ => false

/-- `isinstance(node.op, Elemwise)`. -/
def Op.isElemwise : Op → Bool
  | .elemwise _ => true
  | _ => false

/-- `isinstance(node.op, inc_subtensor_ops)` where
`inc_subtensor_ops = (IncSubtensor, AdvancedIncSubtensor, AdvancedIncSubtensor1)`. -/
def Op.isIncSubtensor : Op → Bool
  | .incSubtensor _ _ => true
  | _ => false

/-- The ops `local_lift_DiracDelta` is registered for:
`(Elemwise, BroadcastTo, DimShuffle) + subtensor_ops` with
`subtensor_ops = (AdvancedSubtensor, AdvancedSubtensor1, Subtensor)`. -/
def Op.liftDiracDeltaTracks : Op → Bool
  | .elemwise _ => true
  | .broadcastTo => true
  | .dimShuffle _ => true
  | .subtensor _ => true
  | _ => false

/-- Number of output variables of an apply node with this op: a
`RandomVariable` node outputs an updated rng and the draw, everything else
here is single-output.  `Expr.app op args` stands for the op's value
output (`outputs[1]` for a `RandomVariable`, `outputs[0]` otherwise). -/
def Op.nOutputs : Op → Nat
  | .randomVar _ _ => 2
  | _ => 1

/-- An apply node as the local rewrite rules receive it: its op, its input
variables, and how many outputs it has. -/
structure Node where
  op : Op
  inputs : List Expr
  nOuts : Nat
  deriving DecidableEq, Repr

/-- The (value) output variable of an apply node. -/
def Node.out (n : Node) : Expr := .app n.op (.ofList n.inputs)

/-- The apply node owning the expression's head, when there is one
(`var.owner`). -/
def Expr.owner : Expr → Option Node
  | .app op args => some { op := op, inputs := args.toList, nOuts := op.nOutputs }
  | _ => none

/-- Python exceptions surfaced by this code. -/
inductive PyError where
  | keyError (k : Expr) : PyError
  | valueError (msg : String) : PyError
  | assertionError : PyError
  | indexError : PyError
  deriving DecidableEq, Repr

/-! ### Python `dict`s as association lists -/

/-- A python `dict` keyed and valued by graph variables, as an association
list whose keys are intended to be distinct. -/
abbrev Dict := List (Expr × Expr)

/-- `d.get(k)` / `k in d`: the value at the first matching key. -/
def Dict.lookup : Dict → Expr → Option Expr
  | [], _ => none
  | (k', v) :: t, k => if k' = k then some v else Dict.lookup t k

/-- `k in d`. -/
def Dict.contains (m : Dict) (k : Expr) : Bool := (m.lookup k).isSome

/-- `d[k] = v`: overwrite in place if the key is present, append otherwise. -/
def Dict.insert : Dict → Expr → Expr → Dict
  | [], k, v => [(k, v)]
  | (k', v') :: t, k, v =>
      if k' = k then (k, v) :: t else (k', v') :: Dict.insert t k v

/-- The removal effected by `d.pop(k)`: drop the first pair at key `k`. -/
def Dict.eraseKey : Dict → Expr → Dict
  | [], _ => []
  | (k', v') :: t, k => if k' = k then t else (k', v') :: Dict.eraseKey t k

/-- `len(d)`. -/
def Dict.size (m : Dict) : Nat := m.length

/-- The keys, in order. -/
def Dict.keys (m : Dict) : List Expr := m.map (·.1)

/-- The invariant of a python `dict`: keys are distinct. -/
def Dict.NodupKeys (m : Dict) : Prop := m.keys.Nodup

/-! ### The provenance tracker (`PreserveRVMappings`) -/

/-- The `PreserveRVMappings` graph feature: the RV-value binding map
`rv_values` and the `original_values` map from (possibly rewritten) bound
values back to the values the caller supplied. -/
structure PreserveRVMappings where
  rv_values : Dict
  original_values : Dict
  deriving DecidableEq, Repr

/-- `PreserveRVMappings.__init__`: store `rv_values` and seed
`original_values = {v: v for v in rv_values.values()}`. -/
def PreserveRVMappings.init (rv_values : Dict) : PreserveRVMappings :=
  { rv_values := rv_values,
    original_values := rv_values.foldl (fun m kv => m.insert kv.2 kv.2) [] }

/-- The working graph as the rules see it: its output slots, the
optionally attached `preserve_rv_mappings` feature, and the optional
`dont_touch_vars` attribute consulted by `naive_bcast_rv_lift`. -/
structure FGraph where
  outputs : List Expr
  preserve_rv_mappings : Option PreserveRVMappings
  dont_touch_vars : Option (List Expr)
  deriving DecidableEq, Repr

/-- `PreserveRVMappings.on_attach`: raise `ValueError` if the graph
already has the feature, otherwise set `fgraph.preserve_rv_mappings`. -/
def PreserveRVMappings.on_attach (self : PreserveRVMappings) (fgraph : FGraph) :
    Except PyError FGraph :=
  if fgraph.preserve_rv_mappings.isSome then
    .error (.valueError "already has the PreserveRVMappings feature attached")
  else
    .ok { fgraph with preserve_rv_mappings := some self }

/-- `PreserveRVMappings.update_rv_maps`, with python's in-place mutation
order made explicit: `rv_values.pop(old_rv)` (a `KeyError` here leaves both
maps untouched), then `original_values.pop(old_value)` (a `KeyError` here
leaves `rv_values` already one entry smaller), then the two insertions.
The first component is the exception raised, if any; the second is the
state of the maps when the call returns or the exception escapes. -/
def PreserveRVMappings.update_rv_maps (self : PreserveRVMappings)
    (old_rv new_value : Expr) (new_rv : Option Expr) :
    Option PyError × PreserveRVMappings :=
  match self.rv_values.lookup old_rv with
  | none => (some (.keyError old_rv), self)
  | some old_value =>
    let self1 : PreserveRVMappings :=
      { self with rv_values := self.rv_values.eraseKey old_rv }
    match self1.original_values.lookup old_value with
    | none => (some (.keyError old_value), self1)
    | some original_value =>
      let new_rv' := new_rv.getD old_rv
      (none,
        { rv_values := self1.rv_values.insert new_rv' new_value,
          original_values :=
            (self1.original_values.eraseKey old_value).insert new_value original_value })

/-- `PreserveRVMappings.on_change_input`: `rv_values.pop(r, None)`; when
`r` was bound, rebind its value to `new_r`. -/
def PreserveRVMappings.on_change_input (self : PreserveRVMappings)
    (r new_r : Expr) : PreserveRVMappings :=
  match self.rv_values.lookup r with
  | none => self
  | some r_value_var =>
      { self with rv_values := (self.rv_values.eraseKey r).insert new_r r_value_var }

/-! ### The local rewrite rules -/

/-- Outcome of a local rewrite rule at a node: decline (`return None`),
a replacement list, or an escaped exception. -/
inductive RuleRes where
  | noMatch : RuleRes
  | replace (vs : List Expr) : RuleRes
  | raised (e : PyError) : RuleRes
  deriving DecidableEq, Repr

/-- `local_lift_DiracDelta`: lift a basic op through a `DiracDelta`.
Declines for nodes with more than one output and for `Elemwise` nodes
whose input count is not one; otherwise, when `node.inputs[0]` is owned by
a `DiracDelta`, rebuilds the op on the delta's value and wraps the result
in a new `DiracDelta`. -/
def local_lift_DiracDelta (node : Node) : RuleRes :=
  if node.nOuts > 1 then .noMatch
  else if node.op.isElemwise && node.inputs.length != 1 then .noMatch
  else
    match node.inputs.head? with
    | none => .raised .indexError
    | some dd_inp =>
      match dd_inp with
      | .app .diracDelta (.cons dd_val _) =>
          .replace [.app .diracDelta (.ofList
            [.app node.op (.ofList (dd_val :: node.inputs.tail))])]
      | _ => .noMatch

/-- `local_remove_DiracDelta`: replace a `DiracDelta` node by its input. -/
def local_remove_DiracDelta (node : Node) : RuleRes :=
  match node.inputs.head? with
  | none => .raised .indexError
  | some dd_val => .replace [dd_val]

/-- `incsubtensor_rv_replace`: the partial-observation indexed rewrite.
Declines without a tracker, on non-`*IncSubtensor*` ops, on untracked
outputs, and when the written-to input is not an untracked measurable
variable; otherwise builds the new bound value
`at.set_subtensor(value_var[idx], data)`, transfers the tracking to the
base variable via `update_rv_maps`, and replaces the node by the base
variable.  The updated graph (its tracker mutated in place by
`update_rv_maps`) is returned alongside the outcome. -/
def incsubtensor_rv_replace (fgraph : FGraph) (node : Node) :
    RuleRes × FGraph :=
  match fgraph.preserve_rv_mappings with
  | none => (.noMatch, fgraph)
  | some rv_map_feature =>
    if ¬ node.op.isIncSubtensor then (.noMatch, fgraph)
    else
      let rv_var := node.out
      match rv_map_feature.rv_values.lookup rv_var with
      | none => (.noMatch, fgraph)
      | some value_var =>
        match node.inputs.head? with
        | none => (.raised .indexError, fgraph)
        | some base_rv_var =>
          let baseOk :=
            match base_rv_var.owner with
            | some ow => ow.op.isMeasurable &&
                ! rv_map_feature.rv_values.contains base_rv_var
            | none => false
          if ! baseOk then (.noMatch, fgraph)
          else
            match node.inputs[1]? with
            | none => (.raised .indexError, fgraph)
            | some data =>
              let idx := match node.op with
                | .incSubtensor is _ => is
                | _ => []
              let new_value_var : Expr :=
                .app (.incSubtensor idx true) (.ofList [value_var, data])
              match rv_map_feature.update_rv_maps rv_var new_value_var (some base_rv_var) with
              | (some e, tr') =>
                  (.raised e, { fgraph with preserve_rv_mappings := some tr' })
              | (none, tr') =>
                  (.replace [base_rv_var],
                    { fgraph with preserve_rv_mappings := some tr' })

/-- The tail of `naive_bcast_rv_lift` past its decline guards: the scalar
no-op case (with its `assert rv_var.ndim == 0`), the external size lift,
and the parameter rebroadcast returning the rebuilt node's draw output
(`bcasted_node.outputs[1]`). -/
def naiveBcastBody (sizeLift : Node → Option Node) (rv_var : Expr)
    (rv_node : Node) (bcast_shape : List Expr) : RuleRes :=
  if bcast_shape = [] then
    match rv_node.op with
    | .randomVar _ ndim => if ndim ≠ 0 then .raised .assertionError else .replace [rv_var]
    | _ => .raised .assertionError
  else
    let lifted_node := (sizeLift rv_node).getD rv_node
    match lifted_node.inputs with
    | rng :: size :: dtype :: dist_params =>
      let new_dist_params := dist_params.map (fun param =>
        Expr.app .broadcastTo (.ofList [param,
          .app .broadcastShape (.ofList (Expr.app .shapeOf (.ofList [param]) :: bcast_shape))]))
      .replace [.app lifted_node.op (.ofList (rng :: size :: dtype :: new_dist_params))]
    | _ => .raised (.valueError "not enough values to unpack")

/-- `naive_bcast_rv_lift`: lift a `BroadcastTo` through a
`RandomVariable`.  `sizeLift` embeds the external
`local_rv_size_lift.transform` (it returns the size-lifted rv node, or
`none` when that rewrite does not apply).  Declines when the node is not
a `BroadcastTo` of a `RandomVariable`'s output, on `dont_touch_vars`
members, and on variables bound in the tracker; the rest is
`naiveBcastBody`. -/
def naive_bcast_rv_lift (sizeLift : Node → Option Node) (fgraph : FGraph)
    (node : Node) : RuleRes :=
  if node.op ≠ .broadcastTo then .noMatch
  else
    match node.inputs with
    | [] => .raised .indexError
    | rv_var :: bcast_shape =>
      match rv_var.owner with
      | none => .noMatch
      | some rv_node =>
        match rv_node.op with
        | .randomVar _ _ =>
          if (fgraph.dont_touch_vars.getD []).contains rv_var then .noMatch
          else
            match fgraph.preserve_rv_mappings with
            | some rv_map_feature =>
              if rv_map_feature.rv_values.contains rv_var then .noMatch
              else naiveBcastBody sizeLift rv_var rv_node bcast_shape
            | none => naiveBcastBody sizeLift rv_var rv_node bcast_shape
        | _ => .noMatch

/-! ### Concrete forward evaluation -/

/-- `set_subtensor` on concrete vectors: write `data` into `v` at the
positions `idx` (`result[idx[k]] = data[k]`). -/
def writeAt : List Int → List Nat → List Int → List Int
  | v, [], _ => v
  | v, _ :: _, [] => v
  | v, i :: is, d :: ds => writeAt (v.set i d) is ds

/-- Forward evaluation of an expression to a concrete vector.  `env`
gives the values of free inputs, `F` interprets elementwise op codes as
scalar functions.  A `DiracDelta` node forward-evaluates to its input (a
point mass at `V` takes the value `V`); random draws have no
deterministic forward value. -/
def evalE (env : Nat → Option (List Int)) (F : Nat → Int → Int) : Expr → Option (List Int)
  | .fv n => env n
  | .lit v => some v
  | .app .diracDelta (.cons a .nil) => evalE env F a
  | .app (.elemwise c) (.cons a .nil) => (evalE env F a).map (List.map (F c))
  | .app (.incSubtensor idx true) (.cons b (.cons d .nil)) =>
      match evalE env F b, evalE env F d with
      | some vb, some vd => some (writeAt vb idx vd)
      | _, _ => none
  | .app (.subtensor idx) (.cons a .nil) =>
      (evalE env F a).map (fun v => idx.filterMap v.get?)
  | _ => none

/-! ### The working-graph builder and fixpoint scheduler

`construct_ir_fgraph` lives in `opt.py`; the `FunctionGraph` cloning and
the `EquilibriumOptimizer` it drives live in the external graph substrate
(aesara), so those two pieces are modelled from the spec as noted on each
definition. -/

mutual
/-- All variables reachable from an expression, itself included. -/
def Expr.subVars : Expr → List Expr
  | .fv n => [.fv n]
  | .lit v => [.lit v]
  | .app op args => .app op args :: args.subVarsL
/-- All variables reachable from a list of inputs. -/
def ExprList.subVarsL : ExprList → List Expr
  | .nil => []
  | .cons a t => a.subVars ++ t.subVarsL
end

mutual
/-- All apply nodes reachable from an expression. -/
def Expr.appNodes : Expr → List Node
  | .fv _ => []
  | .lit _ => []
  | .app op args =>
      { op := op, inputs := args.toList, nOuts := op.nOutputs } :: args.appNodesL
/-- All apply nodes reachable from a list of inputs. -/
def ExprList.appNodesL : ExprList → List Node
  | .nil => []
  | .cons a t => a.appNodes ++ t.appNodesL
end

mutual
/-- `fgraph.replace`: substitute `new` for the variable `old` everywhere. -/
def Expr.subst (old new : Expr) : Expr → Expr
  | .fv n => if Expr.fv n = old then new else .fv n
  | .lit v => if Expr.lit v = old then new else .lit v
  | .app op args =>
      if Expr.app op args = old then new else .app op (args.substL old new)
termination_by e => sizeOf e
/-- Substitution over apply-node inputs. -/
def ExprList.substL (old new : Expr) : ExprList → ExprList
  | .nil => .nil
  | .cons a t => .cons (Expr.subst old new a) (ExprList.substL old new t)
termination_by l => sizeOf l
end

/-- Modelled from the spec: the graph substrate's node replacement (spec
§4.1 `on_replace`): swap `new` for `old` in every output slot and notify
the attached tracker once through `on_change_input` (the substrate
notifies once per consumer input; after the first notification pops the
binding the rest are no-ops, so one notification is equivalent). -/
def FGraph.replaceVar (fgraph : FGraph) (old new : Expr) : FGraph :=
  { fgraph with
      outputs := fgraph.outputs.map (Expr.subst old new),
      preserve_rv_mappings :=
        fgraph.preserve_rv_mappings.map (fun tr => tr.on_change_input old new) }

/-- One attempt of the rewrite catalog at one node, in registration
order: the two `DiracDelta` rules from the canonicalize database, then
the measurable-IR rules `naive_bcast_rv_lift` and
`incsubtensor_rv_replace` (the external aesara lifts are outside this
embedding).  Rules are dispatched only at nodes whose op they track. -/
def tryCatalogAt (sizeLift : Node → Option Node) (fgraph : FGraph)
    (node : Node) : RuleRes × FGraph :=
  if node.op.liftDiracDeltaTracks then
    match local_lift_DiracDelta node with
    | .noMatch => (.noMatch, fgraph)
    | r => (r, fgraph)
  else if node.op = .diracDelta then
    match local_remove_DiracDelta node with
    | .noMatch => (.noMatch, fgraph)
    | r => (r, fgraph)
  else if node.op = .broadcastTo then
    (naive_bcast_rv_lift sizeLift fgraph node, fgraph)
  else if node.op.isIncSubtensor then
    incsubtensor_rv_replace fgraph node
  else (.noMatch, fgraph)

/-- One sweep step: try the catalog on each candidate node in turn and
perform the first replacement found.  Returns `none` when no rule fired
in the whole sweep. -/
def sweepOnce (sizeLift : Node → Option Node) :
    List Node → FGraph → Except PyError (Option FGraph)
  | [], _ => .ok none
  | node :: rest, fgraph =>
    match tryCatalogAt sizeLift fgraph node with
    | (.raised e, _) => .error e
    | (.replace (v :: _), fgraph') => .ok (some (fgraph'.replaceVar node.out v))
    | (.replace [], _) => .error (.valueError "empty replacement")
    | (.noMatch, _) => sweepOnce sizeLift rest fgraph

/-- Modelled from the spec: the fixpoint scheduler (spec §4.3) embodied
by aesara's `EquilibriumOptimizer` over `logprob_rewrites_db`: sweep all
candidate nodes against the catalog until a full sweep produces zero
replacements, with explicit fuel bounding the sweep count.  Exceptions
from rules are not caught (`NoCallbackEquilibriumDB` sets
`failure_callback = None`). -/
def equilibriumOpt (sizeLift : Node → Option Node) :
    Nat → FGraph → Except PyError FGraph
  | 0, fgraph => .ok fgraph
  | fuel + 1, fgraph =>
    match sweepOnce sizeLift (fgraph.outputs.flatMap Expr.appNodes) fgraph with
    | .error e => .error e
    | .ok none => .ok fgraph
    | .ok (some fgraph') => equilibriumOpt sizeLift fuel fgraph'

/-- `construct_ir_fgraph`: seed the clone memo with the value variables
(pinning them by identity), clone the graph reachable from the keys of
`rv_values` (modelled from the spec: in this embedding a clone is
structurally identical, so cloning extends the memo with the identity on
every reachable variable not already pinned), rebuild `rv_values` over
the cloned keys (`memo[k]` raising a `KeyError` if a key were missing),
attach a fresh `PreserveRVMappings`, run the rewrites to equilibrium, and
return the graph, the (in-place updated) `rv_values`, and the memo. -/
def construct_ir_fgraph (sizeLift : Node → Option Node) (fuel : Nat)
    (rv_values : Dict) : Except PyError (FGraph × Dict × Dict) := do
  let memo0 : Dict := rv_values.foldl (fun m kv => m.insert kv.2 kv.2) []
  let memo : Dict :=
    ((rv_values.map (·.1)).flatMap Expr.subVars).foldl
      (fun m x => if m.contains x then m else m.insert x x) memo0
  let cloneOf : Expr → Except PyError Expr := fun k =>
    match memo.lookup k with
    | some k' => .ok k'
    | none => .error (.keyError k)
  let outs ← rv_values.mapM (fun kv => cloneOf kv.1)
  let fgraph0 : FGraph :=
    { outputs := outs, preserve_rv_mappings := none, dont_touch_vars := none }
  let rv_values' ← rv_values.mapM (fun kv => do pure ((← cloneOf kv.1), kv.2))
  let rv_remapper := PreserveRVMappings.init rv_values'
  let fgraph1 ← rv_remapper.on_attach fgraph0
  let fgraph2 ← equilibriumOpt sizeLift fuel fgraph1
  let finalValues :=
    match fgraph2.preserve_rv_mappings with
    | some tr => tr.rv_values
    | none => rv_values'
  return (fgraph2, finalValues, memo)

/-! ### Dictionary lemmas -/

theorem Dict.lookup_insert_self (m : Dict) (k v : Expr) :
    (m.insert k v).lookup k = some v := by
  induction m with
  | nil => simp [Dict.insert, Dict.lookup]
  | cons p t ih =>
    obtain ⟨k', v'⟩ := p
    by_cases h : k' = k
    · subst h; simp [Dict.insert, Dict.lookup]
    · simp [Dict.insert, Dict.lookup, h, ih]

theorem Dict.lookup_insert_ne (m : Dict) (k v k₂ : Expr) (h : k₂ ≠ k) :
    (m.insert k v).lookup k₂ = m.lookup k₂ := by
  induction m with
  | nil => simp [Dict.insert, Dict.lookup, Ne.symm h]
  | cons p t ih =>
    obtain ⟨k', v'⟩ := p
    by_cases hk : k' = k
    · subst hk
      simp [Dict.insert, Dict.lookup, Ne.symm h]
    · by_cases hk2 : k' = k₂ <;>
        simp [Dict.insert, Dict.lookup, h, hk, hk2, ih]

theorem Dict.lookup_eraseKey_ne (m : Dict) (k k₂ : Expr) (h : k₂ ≠ k) :
    (m.eraseKey k).lookup k₂ = m.lookup k₂ := by
  induction m with
  | nil => simp [Dict.eraseKey]
  | cons p t ih =>
    obtain ⟨k', v'⟩ := p
    by_cases hk : k' = k
    · subst hk
      simp [Dict.eraseKey, Dict.lookup, Ne.symm h]
    · by_cases hk2 : k' = k₂ <;>
        simp [Dict.eraseKey, Dict.lookup, h, hk, hk2, ih]

theorem Dict.lookup_eq_none_of_not_mem_keys (m : Dict) (k : Expr)
    (h : k ∉ m.keys) : m.lookup k = none := by
  induction m with
  | nil => simp [Dict.lookup]
  | cons p t ih =>
    obtain ⟨k', v'⟩ := p
    simp only [Dict.keys, List.map_cons, List.mem_cons] at h
    push_neg at h
    obtain ⟨h1, h2⟩ := h
    simp [Dict.lookup, Ne.symm h1, ih (by simpa [Dict.keys] using h2)]

theorem Dict.lookup_eraseKey_self (m : Dict) (k : Expr) (h : m.NodupKeys) :
    (m.eraseKey k).lookup k = none := by
  induction m with
  | nil => simp [Dict.eraseKey, Dict.lookup]
  | cons p t ih =>
    obtain ⟨k', v'⟩ := p
    simp only [Dict.NodupKeys, Dict.keys, List.map_cons, List.nodup_cons] at h
    by_cases hk : k' = k
    · subst hk
      simpa [Dict.eraseKey] using
        Dict.lookup_eq_none_of_not_mem_keys t k' (by simpa [Dict.keys] using h.1)
    · simpa [Dict.eraseKey, Dict.lookup, hk] using ih (by simpa [Dict.NodupKeys, Dict.keys] using h.2)

theorem Dict.eraseKey_of_not_contains (m : Dict) (k : Expr)
    (h : m.contains k = false) : m.eraseKey k = m := by
  induction m with
  | nil => simp [Dict.eraseKey]
  | cons p t ih =>
    obtain ⟨k', v'⟩ := p
    by_cases hk : k' = k
    · simp [Dict.contains, Dict.lookup, hk] at h
    · simp only [Dict.contains, Dict.lookup, hk, if_false] at h
      simp [Dict.eraseKey, hk, ih h]

theorem Dict.size_eraseKey_of_contains (m : Dict) (k : Expr)
    (h : m.contains k = true) : (m.eraseKey k).size + 1 = m.size := by
  induction m with
  | nil => simp [Dict.contains, Dict.lookup] at h
  | cons p t ih =>
    obtain ⟨k', v'⟩ := p
    by_cases hk : k' = k
    · simp [Dict.eraseKey, hk, Dict.size]
    · simp only [Dict.contains, Dict.lookup, hk, if_false] at h
      simpa [Dict.eraseKey, hk, Dict.size] using ih h

theorem Dict.size_insert_of_contains (m : Dict) (k v : Expr)
    (h : m.contains k = true) : (m.insert k v).size = m.size := by
  induction m with
  | nil => simp [Dict.contains, Dict.lookup] at h
  | cons p t ih =>
    obtain ⟨k', v'⟩ := p
    by_cases hk : k' = k
    · simp [Dict.insert, hk, Dict.size]
    · simp only [Dict.contains, Dict.lookup, hk, if_false] at h
      simpa [Dict.insert, hk, Dict.size] using ih h

theorem Dict.size_insert_of_not_contains (m : Dict) (k v : Expr)
    (h : m.contains k = false) : (m.insert k v).size = m.size + 1 := by
  induction m with
  | nil => simp [Dict.insert, Dict.size]
  | cons p t ih =>
    obtain ⟨k', v'⟩ := p
    by_cases hk : k' = k
    · simp [Dict.contains, Dict.lookup, hk] at h
    · simp only [Dict.contains, Dict.lookup, hk, if_false] at h
      simpa [Dict.insert, hk, Dict.size] using ih h

theorem Dict.contains_eraseKey_ne (m : Dict) (k k₂ : Expr) (h : k₂ ≠ k) :
    (m.eraseKey k).contains k₂ = m.contains k₂ := by
  simp [Dict.contains, Dict.lookup_eraseKey_ne m k k₂ h]

theorem Dict.contains_of_lookup_some (m : Dict) (k v : Expr)
    (h : m.lookup k = some v) : m.contains k = true := by
  simp [Dict.contains, h]

/-! ### Claim theorems -/

/-- C7: attaching a `PreserveRVMappings` tracker to a working graph that
already has one attached raises a `ValueError` (a configuration error),
so at most one tracker is ever attached; attaching to a graph without one
succeeds and installs the tracker. -/
theorem on_attach_at_most_one_tracker (tr : PreserveRVMappings) (fgraph : FGraph) :
    (fgraph.preserve_rv_mappings = none →
      tr.on_attach fgraph = .ok { fgraph with preserve_rv_mappings := some tr })
    ∧ (∀ tr₀, fgraph.preserve_rv_mappings = some tr₀ →
      tr.on_attach fgraph =
        .error (.valueError "already has the PreserveRVMappings feature attached")) := by
  constructor
  · intro h
    simp [PreserveRVMappings.on_attach, h]
  · intro tr₀ h
    simp [PreserveRVMappings.on_attach, h]

/-- Witness for C7 at a concrete graph: a fresh graph accepts the
tracker, and a second attach to the resulting graph fails. -/
theorem on_attach_at_most_one_tracker_witness :
    PreserveRVMappings.on_attach ⟨[], []⟩ ⟨[], none, none⟩ =
      .ok ⟨[], some ⟨[], []⟩, none⟩
    ∧ PreserveRVMappings.on_attach ⟨[], []⟩ ⟨[], some ⟨[], []⟩, none⟩ =
      .error (.valueError "already has the PreserveRVMappings feature attached") :=
  ⟨(on_attach_at_most_one_tracker ⟨[], []⟩ ⟨[], none, none⟩).1 rfl,
   (on_attach_at_most_one_tracker ⟨[], []⟩ ⟨[], some ⟨[], []⟩, none⟩).2 ⟨[], []⟩ rfl⟩

/-- C4: for a node whose first input is owned by a `DiracDelta` wrapping
`V`, `local_lift_DiracDelta` declines (without raising) when the node has
more than one output, and when an `Elemwise` node does not have exactly
one input; otherwise, on a tracked single-output op, it replaces the node
with `DiracDelta(op(V, other inputs))`. -/
theorem local_lift_DiracDelta_spec (node : Node) (V : Expr) (tl : ExprList)
    (hin : node.inputs.head? = some (.app .diracDelta (.cons V tl))) :
    (node.nOuts > 1 → local_lift_DiracDelta node = .noMatch)
    ∧ (node.op.isElemwise = true → node.inputs.length ≠ 1 →
      local_lift_DiracDelta node = .noMatch)
    ∧ (node.nOuts = 1 → (node.op.isElemwise = true → node.inputs.length = 1) →
      local_lift_DiracDelta node =
        .replace [.app .diracDelta (.ofList
          [.app node.op (.ofList (V :: node.inputs.tail))])]) := by
  refine ⟨fun h => ?_, fun he hl => ?_, fun h1 h2 => ?_⟩
  · simp [local_lift_DiracDelta, h]
  · simp [local_lift_DiracDelta, he, hl]
  · by_cases he : node.op.isElemwise = true
    · simp [local_lift_DiracDelta, h1, he, h2 he, hin]
    · simp [local_lift_DiracDelta, h1, he, hin]

/-- Witness for C4 at concrete nodes: a two-output subtensor node
declines, an elemwise node with two inputs declines, and an elemwise node
with one `DiracDelta` input is lifted. -/
theorem local_lift_DiracDelta_spec_witness :
    local_lift_DiracDelta
      ⟨.subtensor [0], [.app .diracDelta (.cons (.fv 7) .nil)], 2⟩ = .noMatch
    ∧ local_lift_DiracDelta
      ⟨.elemwise 3, [.app .diracDelta (.cons (.fv 7) .nil), .fv 8], 1⟩ = .noMatch
    ∧ local_lift_DiracDelta
      ⟨.elemwise 3, [.app .diracDelta (.cons (.fv 7) .nil)], 1⟩ =
        .replace [.app .diracDelta (.ofList
          [.app (.elemwise 3) (.ofList [.fv 7])])] :=
  ⟨(local_lift_DiracDelta_spec
      ⟨.subtensor [0], [.app .diracDelta (.cons (.fv 7) .nil)], 2⟩
      (.fv 7) .nil rfl).1 (by decide),
   (local_lift_DiracDelta_spec
      ⟨.elemwise 3, [.app .diracDelta (.cons (.fv 7) .nil), .fv 8], 1⟩
      (.fv 7) .nil rfl).2.1 rfl (by decide),
   (local_lift_DiracDelta_spec
      ⟨.elemwise 3, [.app .diracDelta (.cons (.fv 7) .nil)], 1⟩
      (.fv 7) .nil rfl).2.2 rfl (fun _ => rfl)⟩

/-- C5: for every elementwise op code, lifting through the degenerate
marker preserves concrete semantics: `local_lift_DiracDelta` turns
`op(DiracDelta(V))` into `DiracDelta(op(V))`, and under every environment
and every interpretation of the op the two expressions evaluate to the
same result. -/
theorem elemwise_lift_preserves_eval (c : Nat) (V : Expr)
    (env : Nat → Option (List Int)) (F : Nat → Int → Int) :
    local_lift_DiracDelta ⟨.elemwise c, [.app .diracDelta (.cons V .nil)], 1⟩ =
      .replace [.app .diracDelta (.cons (.app (.elemwise c) (.cons V .nil)) .nil)]
    ∧ evalE env F (.app (.elemwise c) (.cons (.app .diracDelta (.cons V .nil)) .nil)) =
      evalE env F (.app .diracDelta (.cons (.app (.elemwise c) (.cons V .nil)) .nil)) := by
  constructor
  · rfl
  · simp [evalE]

/-- The base random variable `Y` of the partial-observation scenario: a
length-4 vector draw (its node inputs embed rng, size and dtype). -/
def obsY : Expr := .app (.randomVar 0 1) (.ofList [.fv 90, .fv 91, .fv 92])

/-- The free value variable `y` the caller bound to the write node. -/
def obsYval : Expr := .fv 0

/-- The observed data `[10, 20]`. -/
def obsData : Expr := .lit [10, 20]

/-- The tracked write node `z = Y[idx] = data` at indices `[0, 2]`
(a `set_subtensor`). -/
def obsNode : Node :=
  { op := .incSubtensor [0, 2] true, inputs := [obsY, obsData], nOuts := 1 }

/-- The new bound value `y' = set_subtensor(y[idx], data)` the rule builds. -/
def obsNewValue : Expr :=
  .app (.incSubtensor [0, 2] true) (.ofList [obsYval, obsData])

/-- The working graph of the scenario: the write node is tracked and
bound to `y`, with the tracker attached. -/
def obsFGraph : FGraph :=
  { outputs := [obsNode.out],
    preserve_rv_mappings := some ⟨[(obsNode.out, obsYval)], [(obsYval, obsYval)]⟩,
    dont_touch_vars := none }

/-- C1: on the concrete partial-observation scenario,
`incsubtensor_rv_replace` replaces the write node by the base random
variable `Y`, rebinds the tracking to `Y ↦ y'` with
`y' = set_subtensor(y[[0,2]], [10,20])`, records `y` as the original
value of `y'`, and for every free value `[y0,y1,y2,y3]` of `y` the new
bound value evaluates to `[10, y1, 20, y3]`. -/
theorem incsubtensor_rv_replace_partial_obs :
    incsubtensor_rv_replace obsFGraph obsNode =
      (.replace [obsY],
        { obsFGraph with
            preserve_rv_mappings :=
              some ⟨[(obsY, obsNewValue)], [(obsNewValue, obsYval)]⟩ })
    ∧ ∀ (y0 y1 y2 y3 : Int) (F : Nat → Int → Int),
      evalE (fun n => if n = 0 then some [y0, y1, y2, y3] else none) F obsNewValue =
        some [10, y1, 20, y3] := by
  constructor
  · decide
  · intro y0 y1 y2 y3 F
    rfl

/-- C6: when `old_rv` is bound to `v` and `v` has original value `o`,
`update_rv_maps old_rv new_value new_rv` succeeds and afterwards
`new_rv` (defaulting to `old_rv`) is bound to `new_value`, `new_value`'s
original-value entry is `o`, `old_rv`'s binding is gone (when the key
actually moved), and `v`'s original-value entry is gone (when the value
actually changed). -/
theorem update_rv_maps_transfer (tr : PreserveRVMappings)
    (old_rv new_value v o : Expr) (new_rv : Option Expr)
    (h1 : tr.rv_values.lookup old_rv = some v)
    (h2 : tr.original_values.lookup v = some o)
    (hnd1 : tr.rv_values.NodupKeys) (hnd2 : tr.original_values.NodupKeys) :
    tr.update_rv_maps old_rv new_value new_rv =
      (none,
        { rv_values := (tr.rv_values.eraseKey old_rv).insert (new_rv.getD old_rv) new_value,
          original_values := (tr.original_values.eraseKey v).insert new_value o })
    ∧ ((tr.update_rv_maps old_rv new_value new_rv).2.rv_values.lookup
        (new_rv.getD old_rv) = some new_value)
    ∧ ((tr.update_rv_maps old_rv new_value new_rv).2.original_values.lookup
        new_value = some o)
    ∧ (new_rv.getD old_rv ≠ old_rv →
      (tr.update_rv_maps old_rv new_value new_rv).2.rv_values.lookup old_rv = none)
    ∧ (new_value ≠ v →
      (tr.update_rv_maps old_rv new_value new_rv).2.original_values.lookup v = none) := by
  have heq : tr.update_rv_maps old_rv new_value new_rv =
      (none,
        { rv_values := (tr.rv_values.eraseKey old_rv).insert (new_rv.getD old_rv) new_value,
          original_values := (tr.original_values.eraseKey v).insert new_value o }) := by
    simp [PreserveRVMappings.update_rv_maps, h1, h2]
  refine ⟨heq, ?_, ?_, ?_, ?_⟩
  · rw [heq]
    exact Dict.lookup_insert_self _ _ _
  · rw [heq]
    exact Dict.lookup_insert_self _ _ _
  · intro hne
    rw [heq]
    simp only
    rw [Dict.lookup_insert_ne _ _ _ _ (Ne.symm hne)]
    exact Dict.lookup_eraseKey_self _ _ hnd1
  · intro hne
    rw [heq]
    simp only
    rw [Dict.lookup_insert_ne _ _ _ _ (Ne.symm hne)]
    exact Dict.lookup_eraseKey_self _ _ hnd2

/-- Witness for C6 at a concrete tracker: the binding `fv 0 ↦ fv 1` with
original value `fv 2` is transferred to `fv 4 ↦ fv 3`, and `fv 3`
resolves to `fv 2`. -/
theorem update_rv_maps_transfer_witness :
    PreserveRVMappings.update_rv_maps ⟨[(.fv 0, .fv 1)], [(.fv 1, .fv 2)]⟩
        (.fv 0) (.fv 3) (some (.fv 4)) =
      (none, { rv_values := Dict.insert (Dict.eraseKey [(.fv 0, .fv 1)] (.fv 0)) (.fv 4) (.fv 3),
               original_values := Dict.insert (Dict.eraseKey [(.fv 1, .fv 2)] (.fv 1)) (.fv 3) (.fv 2) })
    ∧ (PreserveRVMappings.update_rv_maps ⟨[(.fv 0, .fv 1)], [(.fv 1, .fv 2)]⟩
        (.fv 0) (.fv 3) (some (.fv 4))).2.rv_values.lookup (.fv 4) = some (.fv 3)
    ∧ (PreserveRVMappings.update_rv_maps ⟨[(.fv 0, .fv 1)], [(.fv 1, .fv 2)]⟩
        (.fv 0) (.fv 3) (some (.fv 4))).2.original_values.lookup (.fv 3) = some (.fv 2)
    ∧ ((Option.some (Expr.fv 4)).getD (.fv 0) ≠ .fv 0 →
      (PreserveRVMappings.update_rv_maps ⟨[(.fv 0, .fv 1)], [(.fv 1, .fv 2)]⟩
        (.fv 0) (.fv 3) (some (.fv 4))).2.rv_values.lookup (.fv 0) = none)
    ∧ ((Expr.fv 3) ≠ .fv 1 →
      (PreserveRVMappings.update_rv_maps ⟨[(.fv 0, .fv 1)], [(.fv 1, .fv 2)]⟩
        (.fv 0) (.fv 3) (some (.fv 4))).2.original_values.lookup (.fv 1) = none) :=
  update_rv_maps_transfer ⟨[(.fv 0, .fv 1)], [(.fv 1, .fv 2)]⟩ (.fv 0) (.fv 3)
    (.fv 1) (.fv 2) (some (.fv 4)) rfl rfl
    (by simp [Dict.NodupKeys, Dict.keys]) (by simp [Dict.NodupKeys, Dict.keys])

/-- C10: calling `update_rv_maps` on an unbound `old_rv` raises a
`KeyError` with both maps unchanged; calling it when `old_rv` is bound to
a value with no `original_values` entry raises a `KeyError` after
`old_rv` has already been popped, leaving the binding map exactly one
entry smaller and the original-value map unchanged. -/
theorem update_rv_maps_error_not_atomic (tr : PreserveRVMappings)
    (old_rv new_value : Expr) (new_rv : Option Expr) :
    (tr.rv_values.lookup old_rv = none →
      tr.update_rv_maps old_rv new_value new_rv = (some (.keyError old_rv), tr))
    ∧ (∀ v, tr.rv_values.lookup old_rv = some v →
      tr.original_values.lookup v = none →
      tr.update_rv_maps old_rv new_value new_rv =
        (some (.keyError v), { tr with rv_values := tr.rv_values.eraseKey old_rv })
      ∧ (tr.rv_values.eraseKey old_rv).size + 1 = tr.rv_values.size) := by
  constructor
  · intro h
    simp [PreserveRVMappings.update_rv_maps, h]
  · intro v h1 h2
    refine ⟨by simp [PreserveRVMappings.update_rv_maps, h1, h2], ?_⟩
    exact Dict.size_eraseKey_of_contains _ _ (Dict.contains_of_lookup_some _ _ _ h1)

/-- Witness for C10 at concrete trackers: popping a missing key leaves
the two-entry tracker untouched; popping a bound key whose value lacks an
original entry leaves the binding map one entry smaller. -/
theorem update_rv_maps_error_not_atomic_witness :
    PreserveRVMappings.update_rv_maps ⟨[(.fv 0, .fv 1)], [(.fv 1, .fv 1)]⟩
        (.fv 5) (.fv 3) none =
      (some (.keyError (.fv 5)), ⟨[(.fv 0, .fv 1)], [(.fv 1, .fv 1)]⟩)
    ∧ (PreserveRVMappings.update_rv_maps ⟨[(.fv 0, .fv 1)], []⟩ (.fv 0) (.fv 3) none =
        (some (.keyError (.fv 1)),
          { rv_values := Dict.eraseKey [(.fv 0, .fv 1)] (.fv 0), original_values := [] })
      ∧ (Dict.eraseKey [(.fv 0, .fv 1)] (.fv 0)).size + 1 =
          Dict.size [(.fv 0, .fv 1)]) :=
  ⟨(update_rv_maps_error_not_atomic ⟨[(.fv 0, .fv 1)], [(.fv 1, .fv 1)]⟩
      (.fv 5) (.fv 3) none).1 rfl,
   (update_rv_maps_error_not_atomic ⟨[(.fv 0, .fv 1)], []⟩
      (.fv 0) (.fv 3) none).2 (.fv 1) rfl rfl⟩

/-- Counterexample to C2 as stated: with two tracked variables, an
`on_change_input` notification replacing the first by the second shrinks
the binding map from two keys to one and silently drops the binding the
second variable already held (`fv 1 ↦ fv 11` is gone, overwritten by
`fv 1 ↦ fv 10`). -/
theorem on_change_input_drops_binding_cex :
    (PreserveRVMappings.on_change_input
        ⟨[(.fv 0, .fv 10), (.fv 1, .fv 11)], [(.fv 10, .fv 10), (.fv 11, .fv 11)]⟩
        (.fv 0) (.fv 1)).rv_values.size = 1
    ∧ Dict.size [((Expr.fv 0), (Expr.fv 10)), ((Expr.fv 1), (Expr.fv 11))] = 2
    ∧ (PreserveRVMappings.on_change_input
        ⟨[(.fv 0, .fv 10), (.fv 1, .fv 11)], [(.fv 10, .fv 10), (.fv 11, .fv 11)]⟩
        (.fv 0) (.fv 1)).rv_values.lookup (.fv 1) = some (.fv 10) := by
  decide

/-- C2 (amended): the binding-map key count is preserved by every tracker
operation whose transfer target is not a distinct, already-tracked key:
`on_change_input` preserves the count whenever the replacement variable
equals the replaced one or is not already tracked, and a successful
`update_rv_maps` preserves it whenever its target key (the given `new_rv`
or, by default, `old_rv`) equals `old_rv` or is not already tracked.
When the target is a distinct key that is already tracked, python's dict
assignment overwrites that key's binding and the map shrinks by exactly
one. -/
theorem tracker_ops_preserve_size (tr : PreserveRVMappings)
    (r new_r old_rv new_value : Expr) (new_rv : Option Expr)
    (hnd : tr.rv_values.NodupKeys) :
    (¬ (tr.rv_values.contains new_r = true ∧ new_r ≠ r) →
      (tr.on_change_input r new_r).rv_values.size = tr.rv_values.size)
    ∧ (tr.rv_values.contains r = true → tr.rv_values.contains new_r = true →
      new_r ≠ r →
      (tr.on_change_input r new_r).rv_values.size + 1 = tr.rv_values.size)
    ∧ (∀ tr', tr.update_rv_maps old_rv new_value new_rv = (none, tr') →
      (new_rv.getD old_rv = old_rv ∨ tr.rv_values.contains (new_rv.getD old_rv) = false) →
      tr'.rv_values.size = tr.rv_values.size) := by
  refine ⟨fun hcond => ?_, fun hr hnewr hne => ?_, fun tr' heq hcond => ?_⟩
  · unfold PreserveRVMappings.on_change_input
    cases hl : tr.rv_values.lookup r with
    | none => rfl
    | some val =>
      have hcr : tr.rv_values.contains r = true :=
        Dict.contains_of_lookup_some _ _ _ hl
      simp only
      by_cases hnr : new_r = r
      · subst hnr
        have h1 : (tr.rv_values.eraseKey new_r).contains new_r = false := by
          simp [Dict.contains, Dict.lookup_eraseKey_self _ _ hnd]
        rw [Dict.size_insert_of_not_contains _ _ _ h1,
          Dict.size_eraseKey_of_contains _ _ hcr]
      · have hnc : tr.rv_values.contains new_r = false := by
          cases hcc : tr.rv_values.contains new_r
          · rfl
          · exact absurd ⟨hcc, hnr⟩ hcond
        have h1 : (tr.rv_values.eraseKey r).contains new_r = false := by
          rw [Dict.contains_eraseKey_ne _ _ _ hnr]
          exact hnc
        rw [Dict.size_insert_of_not_contains _ _ _ h1,
          Dict.size_eraseKey_of_contains _ _ hcr]
  · unfold PreserveRVMappings.on_change_input
    cases hl : tr.rv_values.lookup r with
    | none => simp [Dict.contains, hl] at hr
    | some val =>
      simp only
      have h1 : (tr.rv_values.eraseKey r).contains new_r = true := by
        rw [Dict.contains_eraseKey_ne _ _ _ hne]
        exact hnewr
      rw [Dict.size_insert_of_contains _ _ _ h1]
      exact Dict.size_eraseKey_of_contains _ _ hr
  · unfold PreserveRVMappings.update_rv_maps at heq
    cases hl : tr.rv_values.lookup old_rv with
    | none =>
      rw [hl] at heq
      injection heq with h1 h2
      exact Option.noConfusion h1
    | some old_value =>
      rw [hl] at heq
      cases hl2 : tr.original_values.lookup old_value with
      | none =>
        simp only [hl2] at heq
        injection heq with h1 h2
        exact Option.noConfusion h1
      | some orig =>
        simp only [hl2] at heq
        injection heq with h1 h2
        subst h2
        have hcold : tr.rv_values.contains old_rv = true :=
          Dict.contains_of_lookup_some _ _ _ hl
        have h1 : (tr.rv_values.eraseKey old_rv).contains (new_rv.getD old_rv) = false := by
          by_cases he : new_rv.getD old_rv = old_rv
          · rw [he]
            simp [Dict.contains, Dict.lookup_eraseKey_self _ _ hnd]
          · rw [Dict.contains_eraseKey_ne _ _ _ he]
            rcases hcond with hcond | hcond
            · exact absurd hcond he
            · exact hcond
        simp only
        rw [Dict.size_insert_of_not_contains _ _ _ h1]
        exact Dict.size_eraseKey_of_contains _ _ hcold

/-- Witness for C2 (amended) at a concrete tracker: notifying a
replacement onto an untracked variable keeps the key count at one. -/
theorem tracker_ops_preserve_size_witness :
    (PreserveRVMappings.on_change_input ⟨[(.fv 0, .fv 1)], []⟩
      (.fv 0) (.fv 2)).rv_values.size = Dict.size [((Expr.fv 0), (Expr.fv 1))] :=
  (tracker_ops_preserve_size ⟨[(.fv 0, .fv 1)], []⟩ (.fv 0) (.fv 2) (.fv 0)
    (.fv 3) none (by simp [Dict.NodupKeys, Dict.keys])).1 (by decide)

/-- C3: `naive_bcast_rv_lift` applied to a `BroadcastTo` whose
broadcast-ee is a `RandomVariable` output currently bound in the tracker
returns no match, leaving the variable's binding and graph position
untouched (the rule neither mutates the tracker nor produces a
replacement). -/
theorem naive_bcast_rv_lift_declines_bound (sizeLift : Node → Option Node)
    (fgraph : FGraph) (node : Node) (tr : PreserveRVMappings)
    (rv_var : Expr) (rest : List Expr)
    (htr : fgraph.preserve_rv_mappings = some tr)
    (hin : node.inputs = rv_var :: rest)
    (hbound : tr.rv_values.contains rv_var = true) :
    naive_bcast_rv_lift sizeLift fgraph node = .noMatch := by
  unfold naive_bcast_rv_lift
  by_cases hop : node.op = .broadcastTo
  · rw [hin]
    simp only [hop, ne_eq, not_true_eq_false, if_false]
    cases ho : rv_var.owner with
    | none => rfl
    | some rv_node =>
      cases hro : rv_node.op <;> simp [htr, hbound, hro]
  · simp [hop]

/-- Witness for C3 at a concrete graph: broadcasting a tracked scalar
normal draw is declined. -/
theorem naive_bcast_rv_lift_declines_bound_witness :
    naive_bcast_rv_lift (fun _ => none)
      { outputs := [],
        preserve_rv_mappings :=
          some ⟨[(.app (.randomVar 0 0) (.ofList [.fv 1, .fv 2, .fv 3]), .fv 4)], []⟩,
        dont_touch_vars := none }
      { op := .broadcastTo,
        inputs := [.app (.randomVar 0 0) (.ofList [.fv 1, .fv 2, .fv 3]), .fv 5],
        nOuts := 1 } = .noMatch :=
  naive_bcast_rv_lift_declines_bound (fun _ => none) _ _
    ⟨[(.app (.randomVar 0 0) (.ofList [.fv 1, .fv 2, .fv 3]), .fv 4)], []⟩
    (.app (.randomVar 0 0) (.ofList [.fv 1, .fv 2, .fv 3])) [.fv 5]
    rfl rfl (by decide)

/-- The length-3 vector random variable of the C8 counterexample: node
inputs are rng, size, dtype and one length-3 parameter vector, so the
draw's shape is `(3,)` and broadcasting it to `(3,)` already matches. -/
def bc3RV : Expr := .app (.randomVar 0 1) (.ofList [.fv 90, .fv 91, .fv 92, .fv 93])

/-- `BroadcastTo(bc3RV, 3)`: a broadcast of the length-3 draw to its own
shape `(3,)`. -/
def bc3Node : Node := { op := .broadcastTo, inputs := [bc3RV, .lit [3]], nOuts := 1 }

/-- An untracked working graph holding only the broadcast node. -/
def bc3FGraph : FGraph :=
  { outputs := [bc3Node.out], preserve_rv_mappings := none, dont_touch_vars := none }

/-- Counterexample to C8 as stated: broadcasting an unbound length-3
vector draw to the already-matching shape `(3,)` is NOT removed as a
no-op returning the variable's own output.  The rule only takes the
no-op path when the broadcast has no shape inputs at all; here it
re-parameterizes, rebuilding the node with its distribution parameter
wrapped in `broadcast_to(param, broadcast_shape(param.shape, (3,)))`. -/
theorem naive_bcast_matching_shape_cex :
    naive_bcast_rv_lift (fun _ => none) bc3FGraph bc3Node ≠ .replace [bc3RV]
    ∧ naive_bcast_rv_lift (fun _ => none) bc3FGraph bc3Node =
      .replace [.app (.randomVar 0 1) (.ofList [.fv 90, .fv 91, .fv 92,
        .app .broadcastTo (.ofList [.fv 93,
          .app .broadcastShape (.ofList
            [.app .shapeOf (.ofList [.fv 93]), .lit [3]])])])] := by
  decide

/-- C8 (amended): only a `BroadcastTo` with no target-shape inputs
(broadcasting a scalar to a scalar) is removed as a no-op — for an
unbound, untouched scalar `RandomVariable` the rule's replacement is the
variable's own output, with no re-parameterization; a non-empty target
shape, even one equal to the variable's shape, instead rebuilds the node
with rebroadcast distribution parameters. -/
theorem naive_bcast_scalar_noop (sizeLift : Node → Option Node)
    (fgraph : FGraph) (i : Nat) (args : ExprList)
    (hdt : (fgraph.dont_touch_vars.getD []).contains (.app (.randomVar i 0) args) = false)
    (hunbound : ∀ tr, fgraph.preserve_rv_mappings = some tr →
      tr.rv_values.contains (.app (.randomVar i 0) args) = false) :
    naive_bcast_rv_lift sizeLift fgraph
      { op := .broadcastTo, inputs := [.app (.randomVar i 0) args], nOuts := 1 } =
    .replace [.app (.randomVar i 0) args] := by
  have hdt' : (Expr.app (.randomVar i 0) args) ∉ fgraph.dont_touch_vars.getD [] := by
    simpa using hdt
  unfold naive_bcast_rv_lift
  simp only [ne_eq, not_true_eq_false, if_false]
  cases htr : fgraph.preserve_rv_mappings with
  | none => simp [Expr.owner, hdt', naiveBcastBody]
  | some tr => simp [Expr.owner, hdt', hunbound tr htr, naiveBcastBody]

/-- Witness for C8 (amended) at a concrete graph: a scalar draw broadcast
to a scalar in an untracked graph is replaced by the draw itself. -/
theorem naive_bcast_scalar_noop_witness :
    naive_bcast_rv_lift (fun _ => none)
      { outputs := [], preserve_rv_mappings := none, dont_touch_vars := none }
      { op := .broadcastTo,
        inputs := [.app (.randomVar 7 0) (.ofList [.fv 1, .fv 2, .fv 3])], nOuts := 1 } =
    .replace [.app (.randomVar 7 0) (.ofList [.fv 1, .fv 2, .fv 3])] :=
  naive_bcast_scalar_noop (fun _ => none)
    { outputs := [], preserve_rv_mappings := none, dont_touch_vars := none }
    7 (.ofList [.fv 1, .fv 2, .fv 3]) (by decide)
    (fun tr htr => Option.noConfusion htr)

/-- C9: the full derivation pipeline run on an empty RV-value binding
map completes without raising, for every fuel bound and every behavior
of the external size-lift: it returns a working graph with no output
slots (and the freshly attached empty tracker), an empty binding map,
and an empty original-to-clone memo. -/
theorem construct_ir_fgraph_empty (sizeLift : Node → Option Node) (fuel : Nat) :
    construct_ir_fgraph sizeLift fuel [] =
      .ok ({ outputs := [], preserve_rv_mappings := some ⟨[], []⟩,
             dont_touch_vars := none }, [], []) := by
  cases fuel with
  | zero => rfl
  | succ n => rfl
